import Mathlib

/-!
Verification of the crash-game dashboard core (src/app/page.tsx).

The core consists of a synthetic-outcome generator (`generateCrashMultiplier`),
history insertion (`addManualCrash`, `simulateRounds`), a statistics engine
(`calculateStatistics`) and a six-bucket histogram (`distributionData`).

Modelling conventions:
* JavaScript numbers are modelled as exact rationals (ℚ).
* `Math.random()` draws are passed as explicit parameters: the source calls
  `Math.random()` once to select the branch and a second, independent time to
  scale within the branch, so the generator takes two parameters.
* `parseFloat(x.toFixed(2))` is modelled by `roundTwo`: rounding to the nearest
  hundredth, halves away from zero (all values here are nonnegative, so this is
  `round` half-up).
* `Math.sqrt` followed by `toFixed(2)` is modelled exactly by `sqrtRound100`, a
  computable integer-square-root formula proved below (`sqrtRound100_spec`) to
  equal `round (100 * Real.sqrt v)`.
* `parseFloat` of the manual-entry text field yields `Option ℚ`
  (`none` = non-numeric input, i.e. `NaN`, which fails both comparisons).
* `Date.now()` timestamps and ids are modelled by a ℕ parameter `now`.
-/

/-- One recorded crash event (interface `CrashPoint` in the source). -/
structure CrashPoint where
  id : ℕ
  multiplier : ℚ
  timestamp : ℕ
  deriving DecidableEq, Repr

/-- The summary record (interface `Statistics` in the source). -/
structure Statistics where
  averageMultiplier : ℚ
  medianMultiplier : ℚ
  maxMultiplier : ℚ
  minMultiplier : ℚ
  volatility : ℚ
  crashesBelow2x : ℕ
  crashesAbove5x : ℕ
  crashesAbove10x : ℕ
  deriving DecidableEq, Repr

/-- `parseFloat(q.toFixed(2))`: round to the nearest hundredth (half up; all
values in this program are nonnegative, matching `toFixed`). -/
def roundTwo (q : ℚ) : ℚ := (round (100 * q) : ℚ) / 100

/-- `round (100 * Real.sqrt v)` computed with integer arithmetic: for
`v = a / b ≥ 0` in lowest terms this is `⌊(⌊√(40000·a·b)⌋ + b) / (2·b)⌋`
(proved equal to the real formula in `sqrtRound100_spec`). -/
def sqrtRound100 (v : ℚ) : ℕ :=
  (Nat.sqrt (40000 * v.num.toNat * v.den) + v.den) / (2 * v.den)

/-- `parseFloat(Math.sqrt(v).toFixed(2))`. -/
def roundTwoSqrt (v : ℚ) : ℚ := (sqrtRound100 v : ℚ) / 100

/-- `generateCrashMultiplier` (page.tsx:30-48).  `random` is the branch
selector draw; `u` is the second, independent draw used to scale within the
selected branch. -/
def generateCrashMultiplier (random u : ℚ) : ℚ :=
  if random < 1/2 then
    1 + u
  else if random < 4/5 then
    2 + u * 3
  else if random < 19/20 then
    5 + u * 5
  else
    10 + u * 40

/-- The crash point built by `addManualCrash` (page.tsx:53-57). -/
def manualCrash (multiplier : ℚ) (now : ℕ) : CrashPoint :=
  { id := now, multiplier := roundTwo multiplier, timestamp := now }

/-- `addManualCrash` (page.tsx:50-61).  `input` is `parseFloat` of the text
field (`none` when the text is not numeric: `NaN` fails both comparisons). -/
def addManualCrash (input : Option ℚ) (now : ℕ)
    (crashHistory : List CrashPoint) : List CrashPoint :=
  match input with
  | none => crashHistory
  | some multiplier =>
      if 1 ≤ multiplier ∧ multiplier ≤ 100 then
        (manualCrash multiplier now :: crashHistory).take 100
      else
        crashHistory

/-- `simulateRounds` (page.tsx:63-75).  Each round consumes a pair of
independent uniform draws; `draws.length` plays the role of `count`. -/
def simulateRounds (draws : List (ℚ × ℚ)) (now : ℕ)
    (crashHistory : List CrashPoint) : List CrashPoint :=
  let newCrashes : List CrashPoint := draws.enum.map (fun p =>
    { id := now + p.1
      multiplier := roundTwo (generateCrashMultiplier p.2.1 p.2.2)
      timestamp := now + p.1 * 1000 })
  (newCrashes ++ crashHistory).take 100

/-- `crashHistory.map(c => c.multiplier)` (page.tsx:80). -/
def multipliersOf (crashHistory : List CrashPoint) : List ℚ :=
  crashHistory.map (·.multiplier)

/-- `multipliers.reduce((a, b) => a + b, 0)` (page.tsx:81). -/
def sumOf (ms : List ℚ) : ℚ := ms.foldl (· + ·) 0

/-- `sum / multipliers.length` (page.tsx:82). -/
def avgOf (ms : List ℚ) : ℚ := sumOf ms / ms.length

/-- `[...multipliers].sort((a, b) => a - b)`: ascending sort (page.tsx:84). -/
def sortedOf (ms : List ℚ) : List ℚ := ms.insertionSort (· ≤ ·)

/-- The median selection on the sorted list (page.tsx:85-87). -/
def medianOf (sorted : List ℚ) : ℚ :=
  if sorted.length % 2 = 0 then
    (sorted.getD (sorted.length / 2 - 1) 0 + sorted.getD (sorted.length / 2) 0) / 2
  else
    sorted.getD (sorted.length / 2) 0

/-- `multipliers.reduce((acc, val) => acc + (val - avg)^2, 0) / length`
(page.tsx:89). -/
def varianceOf (ms : List ℚ) : ℚ :=
  (ms.foldl (fun acc val => acc + (val - avgOf ms) ^ 2) 0) / ms.length

/-- `Math.max(...multipliers)` over a nonempty list. -/
def listMax : List ℚ → ℚ
  | [] => 0
  | x :: xs => xs.foldl max x

/-- `Math.min(...multipliers)` over a nonempty list. -/
def listMin : List ℚ → ℚ
  | [] => 0
  | x :: xs => xs.foldl min x

/-- `calculateStatistics` (page.tsx:77-102): `none` for an empty history,
otherwise the summary record. -/
def calculateStatistics (crashHistory : List CrashPoint) : Option Statistics :=
  if crashHistory.length = 0 then none
  else
    let multipliers := multipliersOf crashHistory
    some
      { averageMultiplier := roundTwo (avgOf multipliers)
        medianMultiplier := roundTwo (medianOf (sortedOf multipliers))
        maxMultiplier := listMax multipliers
        minMultiplier := listMin multipliers
        volatility := roundTwoSqrt (varianceOf multipliers)
        crashesBelow2x := (multipliers.filter (fun m => decide (m < 2))).length
        crashesAbove5x := (multipliers.filter (fun m => decide (5 ≤ m))).length
        crashesAbove10x := (multipliers.filter (fun m => decide (10 ≤ m))).length }

/-- `distributionData` (page.tsx:113-120): the fixed six-bucket histogram. -/
def distributionData (crashHistory : List CrashPoint) : List (String × ℕ) :=
  [("1.0x-1.5x", (crashHistory.filter (fun c =>
      decide (1 ≤ c.multiplier ∧ c.multiplier < 3/2))).length),
   ("1.5x-2.0x", (crashHistory.filter (fun c =>
      decide (3/2 ≤ c.multiplier ∧ c.multiplier < 2))).length),
   ("2.0x-3.0x", (crashHistory.filter (fun c =>
      decide (2 ≤ c.multiplier ∧ c.multiplier < 3))).length),
   ("3.0x-5.0x", (crashHistory.filter (fun c =>
      decide (3 ≤ c.multiplier ∧ c.multiplier < 5))).length),
   ("5.0x-10.0x", (crashHistory.filter (fun c =>
      decide (5 ≤ c.multiplier ∧ c.multiplier < 10))).length),
   ("10.0x+", (crashHistory.filter (fun c =>
      decide (10 ≤ c.multiplier))).length)]

example : roundTwo (37475 / 10000) = 15 / 4 := by norm_num [roundTwo, round_eq]

example : sqrtRound100 (1 / 45000) = 0 := by
  have h : (40000 * ((1:ℚ)/45000).num.toNat * ((1:ℚ)/45000).den) = 1800000000 := by
    rw [show ((1:ℚ)/45000).num = 1 by norm_num, show ((1:ℚ)/45000).den = 45000 by norm_num]
    simp
  rw [sqrtRound100, h, show ((1:ℚ)/45000).den = 45000 by norm_num]
  rw [show Nat.sqrt 1800000000 = 42426 by norm_num]

example : generateCrashMultiplier (3/5) (1/2) = 7/2 := by
  norm_num [generateCrashMultiplier]

example : sortedOf [3/2, 5/2, 999/100, 1] = [1, 3/2, 5/2, 999/100] := by
  norm_num [sortedOf, List.insertionSort, List.orderedInsert]

example : medianOf [1, 3/2, 5/2, 999/100] = 2 := by
  norm_num [medianOf, List.getD]

/-! ### Claim C1: absent exactly on the empty history -/

/-- C1: `calculateStatistics` returns a summary for every non-empty history and
`none` exactly for the empty history — the absent result is the only abnormal
case. -/
theorem claim1_summary_absent_iff_empty (crashHistory : List CrashPoint) :
    calculateStatistics crashHistory = none ↔ crashHistory = [] := by
  unfold calculateStatistics
  rcases crashHistory with _ | ⟨c, rest⟩ <;> simp

/-! ### Claim C2: the piecewise branch structure of the generator -/

/-- C2: with selector draw `r ∈ [0,1)` and independent scaling draw `u`, the
generator returns `1+u` on `[0,0.5)`, `2+3u` on `[0.5,0.8)`, `5+5u` on
`[0.8,0.95)` and `10+40u` on `[0.95,1)`; the scaling draw is a separate
argument from the selector draw. -/
theorem claim2_generator_piecewise (r u : ℚ) (hr0 : 0 ≤ r) (hr1 : r < 1) :
    (r < 1/2 → generateCrashMultiplier r u = 1 + u) ∧
    (1/2 ≤ r → r < 4/5 → generateCrashMultiplier r u = 2 + u * 3) ∧
    (4/5 ≤ r → r < 19/20 → generateCrashMultiplier r u = 5 + u * 5) ∧
    (19/20 ≤ r → r < 1 → generateCrashMultiplier r u = 10 + u * 40) := by
  clear hr0 hr1
  unfold generateCrashMultiplier
  refine ⟨fun h1 => ?_, fun h1 h2 => ?_, fun h1 h2 => ?_, fun h1 h2 => ?_⟩ <;>
    split_ifs <;> first | rfl | linarith

theorem claim2_generator_piecewise_witness :
    generateCrashMultiplier (17/20) (1/3) = 5 + (1/3) * 5 := by
  have h := claim2_generator_piecewise (17/20) (1/3) (by norm_num) (by norm_num)
  exact h.2.2.1 (by norm_num) (by norm_num)

/-! ### Claim C7: range safety of the generator -/

theorem gen_range_aux (r u : ℚ) (hu0 : 0 ≤ u) (hu1 : u < 1) :
    1 ≤ generateCrashMultiplier r u ∧ generateCrashMultiplier r u < 50 := by
  unfold generateCrashMultiplier
  split_ifs <;> constructor <;> linarith

/-- C7: for draws in `[0,1)` the generator always returns a value in
`[1, 50)`; there are no failure modes, so no sequence of calls can produce a
value below `1` or at or above `50`. -/
theorem claim7_generator_range (r u : ℚ) (hu0 : 0 ≤ u) (hu1 : u < 1) :
    1 ≤ generateCrashMultiplier r u ∧ generateCrashMultiplier r u < 50 :=
  gen_range_aux r u hu0 hu1

theorem claim7_generator_range_witness :
    1 ≤ generateCrashMultiplier (99/100) (1/2) ∧
      generateCrashMultiplier (99/100) (1/2) < 50 :=
  claim7_generator_range (99/100) (1/2) (by norm_num) (by norm_num)

/-! ### Claim C9: manual-entry validation -/

/-- C9: a non-numeric input (`none`, i.e. `NaN`) or a value outside
`[1, 100]` leaves the history untouched; a value inside `[1, 100]` prepends a
new outcome (truncated to the 100-entry window). -/
theorem claim9_manual_validation :
    (∀ (now : ℕ) (h : List CrashPoint), addManualCrash none now h = h) ∧
    (∀ (m : ℚ) (now : ℕ) (h : List CrashPoint), m < 1 ∨ 100 < m →
      addManualCrash (some m) now h = h) ∧
    (∀ (m : ℚ) (now : ℕ) (h : List CrashPoint), 1 ≤ m → m ≤ 100 →
      addManualCrash (some m) now h = (manualCrash m now :: h).take 100) := by
  refine ⟨fun now h => rfl, fun m now h hm => ?_, fun m now h hm1 hm2 => ?_⟩
  · simp only [addManualCrash]
    rw [if_neg]
    rcases hm with hm | hm <;> intro hc <;> rcases hc with ⟨h1, h2⟩ <;> linarith
  · simp only [addManualCrash]
    rw [if_pos ⟨hm1, hm2⟩]

theorem claim9_manual_validation_witness :
    addManualCrash none 3 [] = [] ∧
    addManualCrash (some 200) 3 [] = [] ∧
    addManualCrash (some (5/2)) 3 [] = (manualCrash (5/2) 3 :: []).take 100 :=
  ⟨claim9_manual_validation.1 3 [],
   claim9_manual_validation.2.1 200 3 [] (Or.inr (by norm_num)),
   claim9_manual_validation.2.2 (5/2) 3 [] (by norm_num) (by norm_num)⟩

/-! ### Claim C10: stored simulated multipliers cover [1.00, 50.00] inclusive -/

theorem roundTwo_ge_one {x : ℚ} (hx : 1 ≤ x) : 1 ≤ roundTwo x := by
  unfold roundTwo
  have h : (100 : ℤ) ≤ round (100 * x) := by
    rw [round_eq]
    exact Int.le_floor.mpr (by push_cast; linarith)
  have h2 : (100 : ℚ) ≤ (round (100 * x) : ℚ) := by exact_mod_cast h
  linarith

theorem roundTwo_le_fifty {x : ℚ} (hx : x < 50) : roundTwo x ≤ 50 := by
  unfold roundTwo
  have h : round (100 * x) < (5001 : ℤ) := by
    rw [round_eq]
    exact Int.floor_lt.mpr (by push_cast; linarith)
  have h2 : (round (100 * x) : ℚ) ≤ 5000 := by exact_mod_cast Int.lt_add_one_iff.mp h
  linarith

/-- C10: a stored simulated multiplier is `roundTwo` of the generator output;
it always lies in `[1, 50]`, and the upper endpoint `50.00` is attained (with
draws `r = 0.99`, `u = 0.99999`) even though the raw generator output is
always strictly below `50`. -/
theorem claim10_stored_simulated_range :
    (∀ r u : ℚ, 0 ≤ u → u < 1 →
      1 ≤ roundTwo (generateCrashMultiplier r u) ∧
        roundTwo (generateCrashMultiplier r u) ≤ 50) ∧
    generateCrashMultiplier (99/100) (99999/100000) < 50 ∧
    roundTwo (generateCrashMultiplier (99/100) (99999/100000)) = 50 ∧
    multipliersOf (simulateRounds [(99/100, 99999/100000)] 0 []) = [50] := by
  have hgen : generateCrashMultiplier (99/100) (99999/100000) = 499996/10000 := by
    norm_num [generateCrashMultiplier]
  have hround : roundTwo (generateCrashMultiplier (99/100) (99999/100000)) = 50 := by
    rw [hgen]
    norm_num [roundTwo, round_eq]
  refine ⟨fun r u hu0 hu1 => ?_, by rw [hgen]; norm_num, hround, ?_⟩
  · obtain ⟨h1, h50⟩ := gen_range_aux r u hu0 hu1
    exact ⟨roundTwo_ge_one h1, roundTwo_le_fifty h50⟩
  · show multipliersOf (List.take 100 _) = [50]
    simp only [simulateRounds, List.enum, List.enumFrom, List.map, multipliersOf,
      List.take, List.append_nil, List.cons_append, List.nil_append]
    rw [hround]

theorem claim10_stored_simulated_range_witness :
    1 ≤ roundTwo (generateCrashMultiplier (1/4) (1/4)) ∧
      roundTwo (generateCrashMultiplier (1/4) (1/4)) ≤ 50 :=
  claim10_stored_simulated_range.1 (1/4) (1/4) (by norm_num) (by norm_num)

/-! ### Claim C5: the six histogram buckets partition the outcomes -/

theorem bucket_single (c : CrashPoint) (hc : 1 ≤ c.multiplier) :
    ((distributionData [c]).map Prod.snd).sum = 1 := by
  simp only [distributionData, ← List.countP_eq_length_filter, List.countP_cons,
    List.countP_nil, List.map_cons, List.map_nil, List.sum_cons, List.sum_nil,
    decide_eq_true_eq]
  rcases lt_or_le c.multiplier (3/2) with h1 | h1
  · rw [if_pos ⟨hc, h1⟩, if_neg (by rintro ⟨a, b⟩; linarith),
      if_neg (by rintro ⟨a, b⟩; linarith), if_neg (by rintro ⟨a, b⟩; linarith),
      if_neg (by rintro ⟨a, b⟩; linarith), if_neg (by intro a; linarith)]
    rfl
  rcases lt_or_le c.multiplier 2 with h2 | h2
  · rw [if_neg (by rintro ⟨a, b⟩; linarith), if_pos ⟨h1, h2⟩,
      if_neg (by rintro ⟨a, b⟩; linarith), if_neg (by rintro ⟨a, b⟩; linarith),
      if_neg (by rintro ⟨a, b⟩; linarith), if_neg (by intro a; linarith)]
    rfl
  rcases lt_or_le c.multiplier 3 with h3 | h3
  · rw [if_neg (by rintro ⟨a, b⟩; linarith), if_neg (by rintro ⟨a, b⟩; linarith),
      if_pos ⟨h2, h3⟩, if_neg (by rintro ⟨a, b⟩; linarith),
      if_neg (by rintro ⟨a, b⟩; linarith), if_neg (by intro a; linarith)]
    rfl
  rcases lt_or_le c.multiplier 5 with h4 | h4
  · rw [if_neg (by rintro ⟨a, b⟩; linarith), if_neg (by rintro ⟨a, b⟩; linarith),
      if_neg (by rintro ⟨a, b⟩; linarith), if_pos ⟨h3, h4⟩,
      if_neg (by rintro ⟨a, b⟩; linarith), if_neg (by intro a; linarith)]
    rfl
  rcases lt_or_le c.multiplier 10 with h5 | h5
  · rw [if_neg (by rintro ⟨a, b⟩; linarith), if_neg (by rintro ⟨a, b⟩; linarith),
      if_neg (by rintro ⟨a, b⟩; linarith), if_neg (by rintro ⟨a, b⟩; linarith),
      if_pos ⟨h4, h5⟩, if_neg (by intro a; linarith)]
    rfl
  · rw [if_neg (by rintro ⟨a, b⟩; linarith), if_neg (by rintro ⟨a, b⟩; linarith),
      if_neg (by rintro ⟨a, b⟩; linarith), if_neg (by rintro ⟨a, b⟩; linarith),
      if_neg (by rintro ⟨a, b⟩; linarith), if_pos h5]
    rfl

theorem bucket_sum (l : List CrashPoint) (hl : ∀ c ∈ l, 1 ≤ c.multiplier) :
    ((distributionData l).map Prod.snd).sum = l.length := by
  induction l with
  | nil => rfl
  | cons c t ih =>
    have hc : 1 ≤ c.multiplier := hl c (List.mem_cons_self c t)
    have ht := ih (fun x hx => hl x (List.mem_cons_of_mem c hx))
    have hone := bucket_single c hc
    simp only [distributionData, ← List.countP_eq_length_filter, List.countP_cons,
      List.countP_nil, List.map_cons, List.map_nil, List.sum_cons, List.sum_nil,
      List.length_cons] at ht hone ⊢
    omega

/-- C5: whenever every multiplier is at least `1` (the domain invariant of
outcomes), each outcome falls into exactly one of the six half-open histogram
buckets — the singleton histogram sums to `1` — and the six bucket counts sum
exactly to the outcome count, including at the boundary values. -/
theorem claim5_histogram_partition (l : List CrashPoint)
    (hl : ∀ c ∈ l, 1 ≤ c.multiplier) :
    ((distributionData l).map Prod.snd).sum = l.length ∧
    ∀ c ∈ l, ((distributionData [c]).map Prod.snd).sum = 1 :=
  ⟨bucket_sum l hl, fun c hc => bucket_single c (hl c hc)⟩

theorem claim5_histogram_partition_witness :
    ((distributionData
        [⟨0, 3/2, 0⟩, ⟨1, 2, 1⟩, ⟨2, 3, 2⟩, ⟨3, 5, 3⟩, ⟨4, 10, 4⟩, ⟨5, 1, 5⟩]).map
      Prod.snd).sum =
      ([⟨0, 3/2, 0⟩, ⟨1, 2, 1⟩, ⟨2, 3, 2⟩, ⟨3, 5, 3⟩, ⟨4, 10, 4⟩,
        (⟨5, 1, 5⟩ : CrashPoint)]).length :=
  (claim5_histogram_partition _ (by
    intro c hc
    simp only [List.mem_cons, List.not_mem_nil, or_false] at hc
    rcases hc with rfl | rfl | rfl | rfl | rfl | rfl <;> norm_num)).1

/-! ### Claim C6: the history is bounded to the 100 most recent entries -/

/-- Driver for sequential manual insertion: the UI layer calling
`addManualCrash` once per entry, with successive `Date.now()` values. -/
def insertManualFrom (i : ℕ) (ms : List ℚ) (h : List CrashPoint) :
    List CrashPoint :=
  match ms with
  | [] => h
  | m :: rest => insertManualFrom (i + 1) rest (addManualCrash (some m) i h)

/-- The crash points a list of valid manual entries creates, in insertion
order (oldest first). -/
def manualSeqFrom (i : ℕ) : List ℚ → List CrashPoint
  | [] => []
  | m :: rest => manualCrash m i :: manualSeqFrom (i + 1) rest

theorem take_append_take {α : Type} (A B : List α) (n : ℕ) :
    (A ++ B.take n).take n = (A ++ B).take n := by
  rw [List.take_append_eq_append_take, List.take_append_eq_append_take,
    List.take_take, Nat.min_eq_left (Nat.sub_le n A.length)]

theorem manualSeqFrom_length (ms : List ℚ) :
    ∀ i : ℕ, (manualSeqFrom i ms).length = ms.length := by
  induction ms with
  | nil => intro i; rfl
  | cons m rest ih => intro i; simp [manualSeqFrom, ih (i + 1)]

theorem insertManualFrom_eq (ms : List ℚ) :
    ∀ (i : ℕ) (h : List CrashPoint), (∀ m ∈ ms, 1 ≤ m ∧ m ≤ 100) →
      h.length ≤ 100 →
      insertManualFrom i ms h = ((manualSeqFrom i ms).reverse ++ h).take 100 := by
  induction ms with
  | nil =>
    intro i h _ hlen
    simp [insertManualFrom, manualSeqFrom, List.take_of_length_le hlen]
  | cons m rest ih =>
    intro i h hv hlen
    obtain ⟨hm1, hm2⟩ := hv m (List.mem_cons_self m rest)
    have hstep : addManualCrash (some m) i h = (manualCrash m i :: h).take 100 := by
      simp only [addManualCrash]
      rw [if_pos ⟨hm1, hm2⟩]
    have hrec := ih (i + 1) (addManualCrash (some m) i h)
      (fun x hx => hv x (List.mem_cons_of_mem m hx))
      (by rw [hstep]; exact List.length_take_le 100 _)
    show insertManualFrom (i + 1) rest (addManualCrash (some m) i h) = _
    rw [hrec, hstep, take_append_take, manualSeqFrom, List.reverse_cons,
      List.append_assoc, List.singleton_append]

/-- C6: insertion keeps the history at no more than 100 entries, and 105
sequential valid manual insertions starting from an empty history retain
exactly the 100 most recently inserted entries, newest first, silently
dropping the oldest 5. -/
theorem claim6_history_bound :
    (∀ (input : Option ℚ) (now : ℕ) (h : List CrashPoint), h.length ≤ 100 →
      (addManualCrash input now h).length ≤ 100) ∧
    (∀ (draws : List (ℚ × ℚ)) (now : ℕ) (h : List CrashPoint), h.length ≤ 100 →
      (simulateRounds draws now h).length ≤ 100) ∧
    (∀ ms : List ℚ, (∀ m ∈ ms, 1 ≤ m ∧ m ≤ 100) → ms.length = 105 →
      insertManualFrom 0 ms [] = ((manualSeqFrom 0 ms).drop 5).reverse ∧
      (insertManualFrom 0 ms []).length = 100) := by
  refine ⟨fun input now h hlen => ?_, fun draws now h hlen => ?_,
    fun ms hv h105 => ?_⟩
  · rcases input with _ | m
    · exact hlen
    · simp only [addManualCrash]
      split
      · exact List.length_take_le 100 _
      · exact hlen
  · exact List.length_take_le 100 _
  · have heq := insertManualFrom_eq ms 0 [] hv (by simp)
    have hlen : (manualSeqFrom 0 ms).length = 105 := by
      rw [manualSeqFrom_length ms 0, h105]
    rw [List.append_nil] at heq
    have hdrop : (manualSeqFrom 0 ms).reverse.take 100 =
        ((manualSeqFrom 0 ms).drop 5).reverse := by
      rw [List.take_reverse, hlen]
    refine ⟨heq.trans hdrop, ?_⟩
    rw [heq.trans hdrop, List.length_reverse, List.length_drop, hlen]

theorem claim6_history_bound_witness :
    (addManualCrash (some 2) 0 []).length ≤ 100 ∧
    (simulateRounds [(0, 0)] 0 []).length ≤ 100 ∧
    (insertManualFrom 0 (List.replicate 105 2) [] =
      ((manualSeqFrom 0 (List.replicate 105 2)).drop 5).reverse ∧
      (insertManualFrom 0 (List.replicate 105 2) []).length = 100) :=
  ⟨claim6_history_bound.1 (some 2) 0 [] (by simp),
   claim6_history_bound.2.1 [(0, 0)] 0 [] (by simp),
   claim6_history_bound.2.2 (List.replicate 105 2)
     (fun m hm => by
       rw [List.eq_of_mem_replicate hm]
       norm_num)
     (List.length_replicate 105 2)⟩

/-! ### Claim C3: the median rule -/

/-- C3: the median reported by `calculateStatistics` is obtained from any
ascending-sorted arrangement `s` of the multipliers by averaging the two
middle elements when the count is even and taking the middle element at index
`⌊n/2⌋` when odd, rounded to 2 decimals. -/
theorem claim3_median_sorted (l : List CrashPoint) (s : List ℚ) (hne : l ≠ [])
    (hperm : s.Perm (multipliersOf l)) (hsort : s.Sorted (· ≤ ·)) :
    (calculateStatistics l).map Statistics.medianMultiplier =
      some (roundTwo (if s.length % 2 = 0 then
          (s.getD (s.length / 2 - 1) 0 + s.getD (s.length / 2) 0) / 2
        else s.getD (s.length / 2) 0)) := by
  have hs : s = sortedOf (multipliersOf l) :=
    List.eq_of_perm_of_sorted
      (hperm.trans (List.perm_insertionSort (· ≤ ·) (multipliersOf l)).symm)
      hsort (List.sorted_insertionSort (· ≤ ·) (multipliersOf l))
  subst hs
  have hlen : l.length ≠ 0 := fun h => hne (List.length_eq_zero.mp h)
  simp only [calculateStatistics, if_neg hlen, Option.map_some]
  rfl

theorem claim3_median_sorted_witness :
    (calculateStatistics
        [⟨0, 3/2, 0⟩, ⟨1, 5/2, 1⟩, ⟨2, 999/100, 2⟩, ⟨3, 1, 3⟩]).map
      Statistics.medianMultiplier = some 2 := by
  have h := claim3_median_sorted
    [⟨0, 3/2, 0⟩, ⟨1, 5/2, 1⟩, ⟨2, 999/100, 2⟩, ⟨3, 1, 3⟩]
    [1, 3/2, 5/2, 999/100]
    (by simp)
    (by
      show ([1] ++ [3/2, 5/2, 999/100] : List ℚ).Perm ([3/2, 5/2, 999/100] ++ [1])
      exact List.perm_append_comm)
    (by norm_num [List.sorted_cons])
  rw [h]
  norm_num [roundTwo, round_eq, List.getD]

/-! ### Claim C4: volatility is the rounded population standard deviation -/

/-- The arithmetic mean, as the specification words it, in ℝ. -/
noncomputable def meanSpec (ms : List ℚ) : ℝ :=
  (ms.map (fun m : ℚ => (m : ℝ))).sum / ms.length

/-- The population standard deviation exactly as the specification words it:
the square root of the sum of squared deviations from the mean divided by `n`
(not `n - 1`). -/
noncomputable def stdDevSpec (ms : List ℚ) : ℝ :=
  Real.sqrt ((ms.map (fun m : ℚ => ((m : ℝ) - meanSpec ms) ^ 2)).sum / ms.length)

/-- Rounding a real to 2 decimals, half up. -/
noncomputable def roundTwoReal (x : ℝ) : ℝ := (round (100 * x) : ℤ) / 100

theorem foldl_add_map (f : ℚ → ℚ) (l : List ℚ) :
    ∀ init : ℚ, l.foldl (fun acc x => acc + f x) init = init + (l.map f).sum := by
  induction l with
  | nil => intro init; simp
  | cons x t ih =>
    intro init
    simp only [List.foldl_cons, List.map_cons, List.sum_cons, ih (init + f x)]
    ring

theorem sumOf_eq_sum (ms : List ℚ) : sumOf ms = ms.sum := by
  have h := foldl_add_map id ms 0
  simpa [sumOf] using h

theorem varianceOf_eq (ms : List ℚ) :
    varianceOf ms = (ms.map (fun x => (x - avgOf ms) ^ 2)).sum / ms.length := by
  rw [varianceOf, foldl_add_map (fun x => (x - avgOf ms) ^ 2) ms 0, zero_add]

theorem cast_list_sum (l : List ℚ) :
    ((l.sum : ℚ) : ℝ) = (l.map (fun x : ℚ => (x : ℝ))).sum := by
  induction l with
  | nil => simp
  | cons x t ih => simp [ih]

theorem avgOf_cast (ms : List ℚ) : ((avgOf ms : ℚ) : ℝ) = meanSpec ms := by
  rw [avgOf, sumOf_eq_sum, meanSpec, Rat.cast_div, cast_list_sum]
  norm_cast

theorem varianceOf_cast (ms : List ℚ) :
    ((varianceOf ms : ℚ) : ℝ) =
      (ms.map (fun m : ℚ => ((m : ℝ) - meanSpec ms) ^ 2)).sum / ms.length := by
  rw [varianceOf_eq, Rat.cast_div, cast_list_sum, List.map_map]
  have hfun : ((fun x : ℚ => (x : ℝ)) ∘ fun x : ℚ => (x - avgOf ms) ^ 2) =
      fun x : ℚ => ((x : ℝ) - meanSpec ms) ^ 2 := by
    funext x
    show (((x - avgOf ms) ^ 2 : ℚ) : ℝ) = ((x : ℝ) - meanSpec ms) ^ 2
    push_cast [avgOf_cast]
    ring
  rw [hfun]
  norm_cast

theorem varianceOf_nonneg (ms : List ℚ) : 0 ≤ varianceOf ms := by
  rw [varianceOf_eq]
  apply div_nonneg
  · apply List.sum_nonneg
    intro x hx
    obtain ⟨y, _, rfl⟩ := List.mem_map.mp hx
    positivity
  · exact_mod_cast Nat.zero_le ms.length

theorem sqrtRound100_spec (v : ℚ) (hv : 0 ≤ v) :
    (sqrtRound100 v : ℤ) = round (100 * Real.sqrt (v : ℝ)) := by
  obtain ⟨a, ha⟩ : ∃ a : ℕ, v.num = (a : ℤ) :=
    ⟨v.num.toNat, (Int.toNat_of_nonneg (Rat.num_nonneg.mpr hv)).symm⟩
  have hb : 0 < v.den := v.den_pos
  have hbR : (0 : ℝ) < (v.den : ℝ) := by exact_mod_cast hb
  have hvR : (v : ℝ) = (a : ℝ) / (v.den : ℝ) := by
    rw [Rat.cast_def, ha]
    norm_num
  have hvR0 : (0 : ℝ) ≤ (v : ℝ) := by exact_mod_cast hv
  have hkey : 100 * Real.sqrt (v : ℝ) =
      Real.sqrt ((40000 * a * v.den : ℕ) : ℝ) / (2 * (v.den : ℝ)) := by
    have hL : 0 ≤ 100 * Real.sqrt (v : ℝ) := by positivity
    have hR : 0 ≤ Real.sqrt ((40000 * a * v.den : ℕ) : ℝ) / (2 * (v.den : ℝ)) := by
      positivity
    refine (sq_eq_sq₀ hL hR).mp ?_
    rw [mul_pow, Real.sq_sqrt hvR0, div_pow, Real.sq_sqrt (by positivity)]
    rw [hvR]
    push_cast
    field_simp
    ring
  rw [round_eq, hkey]
  have hdiv : Real.sqrt ((40000 * a * v.den : ℕ) : ℝ) / (2 * (v.den : ℝ)) + 1 / 2 =
      (Real.sqrt ((40000 * a * v.den : ℕ) : ℝ) + (v.den : ℝ)) /
        ((2 * v.den : ℕ) : ℝ) := by
    push_cast
    field_simp
    ring
  rw [hdiv]
  have hq0 : (0 : ℝ) ≤
      (Real.sqrt ((40000 * a * v.den : ℕ) : ℝ) + (v.den : ℝ)) /
        ((2 * v.den : ℕ) : ℝ) := by positivity
  rw [← Int.natCast_floor_eq_floor hq0, Nat.floor_div_nat,
    Nat.floor_add_nat (Real.sqrt_nonneg _) v.den,
    Real.nat_floor_real_sqrt_eq_nat_sqrt, sqrtRound100, ha]
  norm_num

/-- C4: for every non-empty history, the `volatility` field equals the
population standard deviation of the multipliers — square root of the sum of
squared deviations from the mean divided by `n`, not `n - 1` — rounded to 2
decimals. -/
theorem claim4_volatility (l : List CrashPoint) (hne : l ≠ []) :
    (calculateStatistics l).map (fun s => (s.volatility : ℝ)) =
      some (roundTwoReal (stdDevSpec (multipliersOf l))) := by
  have hlen : l.length ≠ 0 := fun h => hne (List.length_eq_zero.mp h)
  have hvol : ((roundTwoSqrt (varianceOf (multipliersOf l)) : ℚ) : ℝ) =
      roundTwoReal (stdDevSpec (multipliersOf l)) := by
    rw [roundTwoSqrt, roundTwoReal, stdDevSpec, ← varianceOf_cast, Rat.cast_div]
    rw [show (((sqrtRound100 (varianceOf (multipliersOf l)) : ℕ) : ℚ) : ℝ) =
        ((((sqrtRound100 (varianceOf (multipliersOf l)) : ℕ) : ℤ)) : ℝ) by
      push_cast
      rfl]
    rw [sqrtRound100_spec _ (varianceOf_nonneg _)]
    norm_num
  simp only [calculateStatistics, if_neg hlen, Option.map_some']
  exact congrArg some hvol

theorem claim4_volatility_witness :
    (calculateStatistics [⟨0, 3/2, 0⟩, ⟨1, 5/2, 1⟩]).map
        (fun s => (s.volatility : ℝ)) =
      some (roundTwoReal (stdDevSpec (multipliersOf [⟨0, 3/2, 0⟩, ⟨1, 5/2, 1⟩]))) :=
  claim4_volatility [⟨0, 3/2, 0⟩, ⟨1, 5/2, 1⟩] (by simp)

/-! ### Claim C8: volatility nonnegativity and the zero case -/

theorem list_sum_zero_of_nonneg {l : List ℚ} (h0 : ∀ x ∈ l, 0 ≤ x)
    (hs : l.sum = 0) : ∀ x ∈ l, x = 0 := by
  induction l with
  | nil => simp
  | cons a t ih =>
    simp only [List.sum_cons] at hs
    have hta : 0 ≤ t.sum :=
      List.sum_nonneg (fun x hx => h0 x (List.mem_cons_of_mem a hx))
    have ha0 : 0 ≤ a := h0 a (List.mem_cons_self a t)
    have ha : a = 0 := by linarith
    have ht : t.sum = 0 := by linarith
    intro x hx
    rcases List.mem_cons.mp hx with rfl | hx
    · exact ha
    · exact ih (fun y hy => h0 y (List.mem_cons_of_mem a hy)) ht x hx

theorem list_sum_const {l : List ℚ} {c : ℚ} (h : ∀ x ∈ l, x = c) :
    l.sum = l.length * c := by
  induction l with
  | nil => simp
  | cons a t ih =>
    have ha : a = c := h a (List.mem_cons_self a t)
    have ht := ih (fun x hx => h x (List.mem_cons_of_mem a hx))
    simp only [List.sum_cons, List.length_cons, ha, ht]
    push_cast
    ring

theorem avgOf_const {l : List ℚ} {c : ℚ} (hne : l ≠ []) (h : ∀ x ∈ l, x = c) :
    avgOf l = c := by
  have hlen : (l.length : ℚ) ≠ 0 := by
    exact_mod_cast fun hc => hne (List.length_eq_zero.mp hc)
  rw [avgOf, sumOf_eq_sum, list_sum_const h, mul_comm, mul_div_assoc,
    div_self hlen, mul_one]

theorem sqrtRound100_zero : sqrtRound100 0 = 0 := by
  rw [sqrtRound100]
  norm_num

theorem varianceOf_zero_iff (ms : List ℚ) (hne : ms ≠ []) :
    varianceOf ms = 0 ↔ ∀ m ∈ ms, ∀ n ∈ ms, m = n := by
  have hlen : (ms.length : ℚ) ≠ 0 := by
    exact_mod_cast fun hc => hne (List.length_eq_zero.mp hc)
  rw [varianceOf_eq]
  constructor
  · intro h0 m hm n hn
    have hsum : (ms.map (fun x => (x - avgOf ms) ^ 2)).sum = 0 := by
      rcases div_eq_zero_iff.mp h0 with h | h
      · exact h
      · exact absurd h hlen
    have hall := list_sum_zero_of_nonneg
      (fun x hx => by
        obtain ⟨y, _, rfl⟩ := List.mem_map.mp hx
        positivity)
      hsum
    have heq : ∀ x ∈ ms, x = avgOf ms := by
      intro x hx
      have := hall ((x - avgOf ms) ^ 2) (List.mem_map_of_mem _ hx)
      have hsub : x - avgOf ms = 0 := by
        exact pow_eq_zero_iff (by norm_num) |>.mp this
      linarith [hsub]
    rw [heq m hm, heq n hn]
  · intro hid
    have hhead : ms.headD 0 ∈ ms := by
      rcases ms with _ | ⟨a, t⟩
      · exact absurd rfl hne
      · exact List.mem_cons_self a t
    have hconst : ∀ x ∈ ms, x = ms.headD 0 := fun x hx => hid x hx _ hhead
    have havg : avgOf ms = ms.headD 0 := avgOf_const hne hconst
    have hzero : (ms.map (fun x => (x - avgOf ms) ^ 2)).sum = 0 := by
      apply List.sum_eq_zero
      intro x hx
      obtain ⟨y, hy, rfl⟩ := List.mem_map.mp hx
      rw [havg, hconst y hy]
      ring
    rw [hzero, zero_div]

theorem multipliersOf_ne_nil {l : List CrashPoint} (hne : l ≠ []) :
    multipliersOf l ≠ [] := by
  rcases l with _ | ⟨c, t⟩
  · exact absurd rfl hne
  · simp [multipliersOf]

/-- C8 (amended): the volatility field is always nonnegative and is `0`
whenever all multipliers are identical; the unrounded population variance is
`0` exactly when all multipliers are identical.  (The rounded volatility can
also be `0` for non-identical multipliers whose standard deviation is below
`0.005`, so the "only if" direction of the original claim fails.) -/
theorem claim8_volatility_amended (l : List CrashPoint) (hne : l ≠ []) :
    (∀ s, calculateStatistics l = some s →
      0 ≤ s.volatility ∧
      ((∀ m ∈ multipliersOf l, ∀ n ∈ multipliersOf l, m = n) →
        s.volatility = 0)) ∧
    (varianceOf (multipliersOf l) = 0 ↔
      ∀ m ∈ multipliersOf l, ∀ n ∈ multipliersOf l, m = n) := by
  have hlen : l.length ≠ 0 := fun h => hne (List.length_eq_zero.mp h)
  have hiff := varianceOf_zero_iff (multipliersOf l) (multipliersOf_ne_nil hne)
  refine ⟨fun s hs => ?_, hiff⟩
  simp only [calculateStatistics, if_neg hlen, Option.some.injEq] at hs
  subst hs
  constructor
  · show (0:ℚ) ≤ (sqrtRound100 (varianceOf (multipliersOf l)) : ℚ) / 100
    positivity
  · intro hid
    show ((sqrtRound100 (varianceOf (multipliersOf l)) : ℚ)) / 100 = 0
    rw [hiff.mpr hid, sqrtRound100_zero]
    norm_num

theorem claim8_volatility_amended_witness :
    (∀ s, calculateStatistics [(⟨0, 2, 0⟩ : CrashPoint)] = some s →
      0 ≤ s.volatility ∧
      ((∀ m ∈ multipliersOf [(⟨0, 2, 0⟩ : CrashPoint)],
          ∀ n ∈ multipliersOf [(⟨0, 2, 0⟩ : CrashPoint)], m = n) →
        s.volatility = 0)) ∧
    (varianceOf (multipliersOf [(⟨0, 2, 0⟩ : CrashPoint)]) = 0 ↔
      ∀ m ∈ multipliersOf [(⟨0, 2, 0⟩ : CrashPoint)],
        ∀ n ∈ multipliersOf [(⟨0, 2, 0⟩ : CrashPoint)], m = n) :=
  claim8_volatility_amended [⟨0, 2, 0⟩] (by simp)

/-- C8 counterexample: for the history with multipliers `[1.00, 1.00, 1.01]`
the population standard deviation is about `0.0047`, which rounds to `0.00`,
so the reported volatility is `0` although the multipliers are not all
identical — refuting "equals 0 exactly when all multipliers are identical"
for the value `calculateStatistics` returns. -/
theorem claim8_counterexample :
    (calculateStatistics [⟨0, 1, 0⟩, ⟨1, 1, 1⟩, ⟨2, 101/100, 2⟩]).map
        Statistics.volatility = some 0 ∧
    multipliersOf [⟨0, 1, 0⟩, ⟨1, 1, 1⟩, ⟨2, 101/100, 2⟩] = [1, 1, 101/100] ∧
    (1 : ℚ) ≠ 101/100 := by
  have hvar : varianceOf (multipliersOf [⟨0, 1, 0⟩, ⟨1, 1, 1⟩, ⟨2, 101/100, 2⟩]) =
      1/45000 := by
    rw [varianceOf_eq]
    norm_num [avgOf, sumOf_eq_sum, multipliersOf]
  have hsqrt : sqrtRound100 (1/45000) = 0 := by
    have h : (40000 * ((1:ℚ)/45000).num.toNat * ((1:ℚ)/45000).den) = 1800000000 := by
      rw [show ((1:ℚ)/45000).num = 1 by norm_num,
        show ((1:ℚ)/45000).den = 45000 by norm_num]
      simp
    rw [sqrtRound100, h, show ((1:ℚ)/45000).den = 45000 by norm_num]
    rw [show Nat.sqrt 1800000000 = 42426 by norm_num]
  refine ⟨?_, by norm_num [multipliersOf], by norm_num⟩
  simp only [calculateStatistics, List.length_cons, Option.map_some']
  rw [if_neg (by norm_num)]
  simp only [Option.map_some', Option.some.injEq]
  show ((sqrtRound100 (varianceOf (multipliersOf
      [⟨0, 1, 0⟩, ⟨1, 1, 1⟩, ⟨2, 101/100, 2⟩])) : ℚ)) / 100 = 0
  rw [hvar, hsqrt]
  norm_num
